import Mathlib

/-!
A shallow embedding of `easymodel/treemodel.py` (classes `ItemData`,
`ListItemData`, `TreeItem`, `TreeModel`) together with proofs about the
behaviour of the embedded operations.

Python objects are modelled by a heap `Heap : Nat → ItemObj` mapping object
ids to their mutable fields; Python `None` is modelled by `Option`/`pyNone`;
Python exceptions are modelled by `Option` results (`none` = raised); the
recursive `set_model` is modelled with explicit fuel.
-/

/-- A Python value as stored in a `ListItemData` backing list.
Floats are carried as their repr string (they are never computed with). -/
inductive PyVal where
  | pyNone : PyVal
  | pyInt : Int → PyVal
  | pyFloat : String → PyVal
  | pyStr : String → PyVal
  | pyBool : Bool → PyVal
  | pyObjTag : Nat → PyVal
deriving DecidableEq

/-- Python `str()` conversion on the modelled values. -/
def pyStrConv : PyVal → String
  | .pyNone => "None"
  | .pyInt n => toString n
  | .pyFloat s => s
  | .pyStr s => s
  | .pyBool b => if b then "True" else "False"
  | .pyObjTag n => "<object " ++ toString n ++ ">"

/-- `type(data) in (types.IntType, types.FloatType, types.NoneType)`:
true exactly for int, float and None values (a bool is of type bool). -/
def isIntFloatNone : PyVal → Bool
  | .pyNone => true
  | .pyInt _ => true
  | .pyFloat _ => true
  | _ => false

/-- `QtCore.Qt.DisplayRole` -/
def DisplayRole : Int := 0
/-- `QtCore.Qt.EditRole` -/
def EditRole : Int := 2
/-- `INTERNAL_OBJ_ROLE = QtCore.Qt.UserRole` (= 256) -/
def INTERNAL_OBJ_ROLE : Int := 256
/-- `TREEITEM_ROLE = QtCore.Qt.UserRole + 1` -/
def TREEITEM_ROLE : Int := 257
/-- `QtCore.Qt.Horizontal` -/
def QtHorizontal : Int := 1
/-- `QtCore.Qt.Vertical` -/
def QtVertical : Int := 2

/-- `ListItemData.data(column, role)` over the backing list `l`.
`pyNone` models both the implicit `return None` paths and a stored `None`
element (in Python they are the same object). -/
def ListItemData.data (l : List PyVal) (column : Int) (role : Int) : PyVal :=
  if ¬ (column ≥ 0 ∧ column < (l.length : Int)) then .pyNone
  else if role = DisplayRole then
    match l[column.toNat]? with
    | some d => if isIntFloatNone d then d else .pyStr (pyStrConv d)
    | none => .pyNone
  else .pyNone

/-- `ListItemData.set_data(column, value, role)`: returns the Python result
together with the backing list after the call. -/
def ListItemData.set_data (l : List PyVal) (column : Int) (value : PyVal)
    (role : Int) : Bool × List PyVal :=
  if ¬ (column ≥ 0 ∧ column < (l.length : Int)) then (false, l)
  else if role = EditRole ∨ role = DisplayRole then (true, l.set column.toNat value)
  else (false, l)

/-- `ListItemData.column_count()` -/
def ListItemData.column_count (l : List PyVal) : Nat := l.length

/-- The interface an `ItemData` instance offers to its `TreeItem`:
the `data`, `column_count` and `internal_data` methods (the only ones the
embedded operations call through the item). -/
structure ItemDataIface where
  dataF : Int → Int → PyVal
  ccF : Nat
  internalF : PyVal

/-- The mutable fields of a `TreeItem` object: `_parent`, `childItems`,
`_model` and `_data` (object ids are `Nat`; the model is identified by id). -/
structure ItemObj where
  parent : Option Nat
  children : List Nat
  model : Option Nat
  idata : Option ItemDataIface

/-- The Python heap: object id → current object state. -/
def Heap := Nat → ItemObj

/-- Overwrite the `_model` field of object `i`. -/
def updModel (h : Heap) (i : Nat) (m : Option Nat) : Heap :=
  fun j => if j = i then { h j with model := m } else h j

/-- Overwrite the `_parent` field of object `i`. -/
def updParent (h : Heap) (i : Nat) (p : Option Nat) : Heap :=
  fun j => if j = i then { h j with parent := p } else h j

/-- Overwrite the `childItems` field of object `i`. -/
def updChildren (h : Heap) (i : Nat) (cs : List Nat) : Heap :=
  fun j => if j = i then { h j with children := cs } else h j

/-- A `QtCore.QModelIndex`: either the invalid index or one produced by
`createIndex(row, column, internalPointer)`. -/
inductive QModelIndex where
  | invalid : QModelIndex
  | mk : Int → Int → Nat → QModelIndex
deriving DecidableEq

/-- `QModelIndex.row()` (−1 for the invalid index). -/
def QModelIndex.rowI : QModelIndex → Int
  | .invalid => -1
  | .mk r _ _ => r

/-- `QModelIndex.column()` (−1 for the invalid index). -/
def QModelIndex.columnI : QModelIndex → Int
  | .invalid => -1
  | .mk _ c _ => c

/-- `QModelIndex.isValid()` -/
def QModelIndex.isValidI : QModelIndex → Bool
  | .invalid => false
  | .mk _ _ _ => true

/-- `parent.internalPointer() if parent.isValid() else self._root`: the
TreeItem addressed by a parent handle. -/
def resolveItem (root : Nat) : QModelIndex → Nat
  | .invalid => root
  | .mk _ _ p => p

/-- The notifications a `TreeModel` emits around structural changes. -/
inductive ModelEvent where
  | beginInsertRowsEv : QModelIndex → Int → Int → ModelEvent
  | endInsertRowsEv : ModelEvent
  | beginRemoveRowsEv : QModelIndex → Int → Int → ModelEvent
  | endRemoveRowsEv : ModelEvent
deriving DecidableEq

/-- Normalize a Python sequence index: `l[i]` accepts `i` in `[-n, n)`,
counting from the end for negative `i`; anything else is an `IndexError`. -/
def pyNormIndex (n : Nat) (i : Int) : Option Nat :=
  if 0 ≤ i ∧ i < (n : Int) then some i.toNat
  else if -(n : Int) ≤ i ∧ i < 0 then some (i + n).toNat
  else none

/-- Python `l[i]` on a list (`none` = `IndexError`). -/
def pyGet {α : Type} (l : List α) (i : Int) : Option α :=
  (pyNormIndex l.length i).bind fun j => l[j]?

/-- Python `l.index(x)`: position of the first occurrence
(`none` = `ValueError`). -/
def pyListIndex {α : Type} [DecidableEq α] (x : α) : List α → Option Nat
  | [] => none
  | a :: l => if a = x then some 0 else (pyListIndex x l).map (· + 1)

/-- Insert at a clamped nonnegative position, like CPython after index
normalization: a position beyond the end appends. -/
def insertAt {α : Type} : List α → Nat → α → List α
  | l, 0, x => x :: l
  | [], _ + 1, x => [x]
  | a :: l, n + 1, x => a :: insertAt l n x

/-- Python `l.insert(i, x)`: never fails; `i` is clamped into `[0, n]`
after counting negative values from the end. -/
def pyInsert {α : Type} (l : List α) (i : Int) (x : α) : List α :=
  let n := l.length
  let j : Int := if i < 0 then (if i + n < 0 then 0 else i + n) else i
  insertAt l j.toNat x

/-- Python `del l[i]` (`none` = `IndexError`). -/
def pyDelete {α : Type} (l : List α) (i : Int) : Option (List α) :=
  (pyNormIndex l.length i).map fun j => l.eraseIdx j

/-- Python `l.remove(x)`: delete the first occurrence
(`none` = `ValueError`). -/
def pyRemove {α : Type} [DecidableEq α] (l : List α) (x : α) : Option (List α) :=
  (pyListIndex x l).map fun j => l.eraseIdx j

/-- What `TreeItem.data` can return: a plain value (including Python `None`)
or a reference to a `TreeItem` object (the `TREEITEM_ROLE` branch). -/
inductive PyObj where
  | val : PyVal → PyObj
  | ref : Nat → PyObj
deriving DecidableEq

/-- `TreeItem.child(row)`: `return self.childItems[row]`
(`none` = `IndexError`). -/
def TreeItem.child (h : Heap) (i : Nat) (row : Int) : Option Nat :=
  pyGet (h i).children row

/-- `TreeItem.child_count()`: `len(self.childItems)`. -/
def TreeItem.child_count (h : Heap) (i : Nat) : Nat :=
  (h i).children.length

/-- `TreeItem.column_count()`: the column count of the first child's data
if there are children (an `AttributeError`, modelled as `none`, if that
child's `_data` is `None`), else of the own data (0 if it is `None`). -/
def TreeItem.column_count (h : Heap) (i : Nat) : Option Nat :=
  match (h i).children with
  | [] => some (match (h i).idata with
      | some d => d.ccF
      | none => 0)
  | c :: _ => ((h c).idata).map (·.ccF)

/-- `TreeItem.data(column, role)` (lines 385–390): reserved roles first,
then delegation to the provider guarded by
`column >= 0 or column < self._data.column_count()`. -/
def TreeItem.data (h : Heap) (i : Nat) (column : Int) (role : Int) : PyObj :=
  if role = TREEITEM_ROLE then .ref i
  else if role = INTERNAL_OBJ_ROLE ∧ ((h i).idata).isSome then
    .val (match (h i).idata with
      | some d => d.internalF
      | none => .pyNone)
  else match (h i).idata with
    | some d =>
        if column ≥ 0 ∨ column < (d.ccF : Int) then .val (d.dataF column role)
        else .val .pyNone
    | none => .val .pyNone

/-- `TreeItem.set_model(model)`: set the `_model` field and recurse into all
children; the unbounded Python recursion is bounded by explicit fuel. -/
def TreeItem.set_model (m : Option Nat) : Nat → Heap → Nat → Heap
  | 0, h, _ => h
  | fuel + 1, h, i =>
      let h1 := updModel h i m
      ((h1 i).children).foldl (fun acc c => TreeItem.set_model m fuel acc c) h1

/-- The object ids `TreeItem.set_model` visits, (mirrors its recursion
structure, fuel included). -/
def subtreeIds (h : Heap) : Nat → Nat → List Nat
  | 0, _ => []
  | fuel + 1, i => i :: ((h i).children).flatMap (fun c => subtreeIds h fuel c)

/-- `TreeModel.rowCount(parent)`. -/
def TreeModel.rowCount (h : Heap) (root : Nat) (parent : QModelIndex) : Nat :=
  if parent.columnI > 0 then 0
  else TreeItem.child_count h (resolveItem root parent)

/-- `TreeModel.columnCount(parent)` (`none` = the Python call raised). -/
def TreeModel.columnCount (h : Heap) (root : Nat) (parent : QModelIndex) :
    Option Nat :=
  TreeItem.column_count h (resolveItem root parent)

/-- `QAbstractItemModel.hasIndex(row, column, parent)`:
`row >= 0 && column >= 0 && row < rowCount(parent) && column < columnCount(parent)`
with C++ short-circuit evaluation (so `columnCount` is only consulted when
the row check passes). -/
def TreeModel.hasIndex (h : Heap) (root : Nat) (row column : Int)
    (parent : QModelIndex) : Option Bool :=
  if row < 0 ∨ column < 0 then some false
  else if ¬ (row < (TreeModel.rowCount h root parent : Int)) then some false
  else (TreeModel.columnCount h root parent).map
    fun (cc : Nat) => decide (column < (cc : Int))

/-- `TreeModel.index(row, column, parent)` (`none` = the Python call
raised). -/
def TreeModel.index (h : Heap) (root : Nat) (row column : Int)
    (parent : QModelIndex) : Option QModelIndex := do
  let hi ← TreeModel.hasIndex h root row column parent
  if ¬ hi then
    return .invalid
  else
    let parentItem := resolveItem root parent
    let childItem ← TreeItem.child h parentItem row
    return .mk row column childItem

/-- `TreeModel.headerData(section, orientation, role)`. -/
def TreeModel.headerData (h : Heap) (root : Nat) (sec : Int)
    (orientation : Int) (role : Int) : PyObj :=
  if orientation = QtHorizontal then
    let d := TreeItem.data h root sec role
    if d = .val .pyNone ∧ role = DisplayRole then
      .val (.pyStr (toString (sec + 1)))
    else d
  else if orientation = QtVertical ∧ role = DisplayRole then
    .val (.pyStr (toString (sec + 1)))
  else .val .pyNone

/-- `TreeModel.insertRow(row, item, parent)` on the model with id `mid` and
root `root`: sets the item's model recursively, resolves the parent,
brackets the splice with begin/end notifications and returns `True`.
The result is (heap after, returned bool, notifications in order). -/
def TreeModel.insertRow (h : Heap) (mid : Nat) (root : Nat) (row : Int)
    (item : Nat) (parent : QModelIndex) (fuel : Nat) :
    Heap × Bool × List ModelEvent :=
  let h1 := TreeItem.set_model (some mid) fuel h item
  let parentitem := resolveItem root parent
  let h2 := updParent h1 item (some parentitem)
  let h3 := updChildren h2 parentitem (pyInsert ((h2 parentitem).children) row item)
  (h3, true, [.beginInsertRowsEv parent row row, .endInsertRowsEv])

/-- `TreeModel.removeRow(row, parent)` (`none` = the Python call raised,
after the begin notification). -/
def TreeModel.removeRow (h : Heap) (root : Nat) (row : Int)
    (parent : QModelIndex) (fuel : Nat) :
    Option (Heap × Bool × List ModelEvent) := do
  let parentitem := resolveItem root parent
  let item ← pyGet ((h parentitem).children) row
  let h1 := TreeItem.set_model none fuel h item
  let h2 := updParent h1 item none
  let cs ← pyDelete ((h2 parentitem).children) row
  let h3 := updChildren h2 parentitem cs
  return (h3, true, [.beginRemoveRowsEv parent row row, .endRemoveRowsEv])

/-- The `while True` loop of `TreeModel.index_of_item`: collect the strict
ancestors of `i` below the root, closest first. Outer `none` = fuel ran out;
`some none` = the parent chain hit `None` before the root (item not in the
model); `some (some ps)` = the collected `parents` list. -/
def collectParents (h : Heap) (root : Nat) :
    Nat → Nat → Option (Option (List Nat))
  | 0, _ => none
  | fuel + 1, i =>
      match (h i).parent with
      | none => some none
      | some p =>
          if p = root then some (some [])
          else (collectParents h root fuel p).map (Option.map (p :: ·))

/-- The `for treeitem in reversed(parents)` loop of
`TreeModel.index_of_item`: thread the accumulated parent handle through
`self.index(row, 0, index)` (`none` = the Python loop raised). -/
def buildIndexList (h : Heap) (root : Nat) :
    QModelIndex → List Nat → Option QModelIndex
  | acc, [] => some acc
  | acc, t :: ts => do
      match (h t).parent with
      | none => none
      | some p => do
          let row ← pyListIndex t ((h p).children)
          let idx ← TreeModel.index h root (row : Int) 0 acc
          buildIndexList h root idx ts

/-- `TreeModel.index_of_item(item, column)` (`none` = the Python call
raised or the fuel for the ancestor walk ran out). -/
def TreeModel.index_of_item (h : Heap) (root : Nat) (item : Nat)
    (column : Int) (fuel : Nat) : Option QModelIndex :=
  if item = root then some .invalid
  else do
    let res ← collectParents h root fuel item
    match res with
    | none => return .invalid
    | some parents => do
        let idx ← buildIndexList h root .invalid parents.reverse
        match (h item).parent with
        | none => none
        | some p => do
            let row ← pyListIndex item ((h p).children)
            TreeModel.index h root (row : Int) column idx

/-- `TreeItem.remove_child(child)` on item `p` (with `root` the root of the
model `p` may belong to): `child.set_model(None)` first, then locate and
remove the child. Result: `none` = an unmodelled internal call raised;
`some (h, raised)` = final heap plus whether a `ValueError` was raised. -/
def TreeItem.remove_child (h : Heap) (root : Nat) (p c : Nat) (fuel : Nat) :
    Option (Heap × Bool) :=
  let h1 := TreeItem.set_model none fuel h c
  match (h1 p).model with
  | some _ =>
      match pyListIndex c ((h1 p).children) with
      | none => some (h1, true)
      | some row => do
          let pidx ← TreeModel.index_of_item h1 root p 0 fuel
          let r ← TreeModel.removeRow h1 root (row : Int) pidx fuel
          return (r.1, false)
  | none =>
      match pyListIndex c ((h1 p).children) with
      | none => some (h1, true)
      | some _ =>
          (pyRemove ((h1 p).children) c).map fun cs =>
            (updChildren h1 p cs, false)

/-- The `parents` list that the `while` loop of `index_of_item` collects for
an attached node: the strict ancestors below the root, closest first, each
consistently recorded in its parent's child list. -/
inductive AttachedChain (h : Heap) (root : Nat) : Nat → List Nat → Prop where
  | base : ∀ c, (h c).parent = some root → c ∈ (h root).children →
      AttachedChain h root c []
  | step : ∀ c p ps, (h c).parent = some p → c ∈ (h p).children → p ≠ root →
      AttachedChain h root p ps → AttachedChain h root c (p :: ps)

/-- A parent chain that reaches `None` before reaching the root: the node is
not in the model. -/
inductive DetachedChain (h : Heap) (root : Nat) : Nat → List Nat → Prop where
  | base : ∀ c, (h c).parent = none → DetachedChain h root c []
  | step : ∀ c p ps, (h c).parent = some p → p ≠ root →
      DetachedChain h root p ps → DetachedChain h root c (p :: ps)

/-- A downward path: each listed node is a child of the previous anchor, and
every anchor passes the `hasIndex` column-0 check (a defined, positive
column count). This is the shape `buildIndexList` consumes. -/
inductive DownChain (h : Heap) : Nat → List Nat → Prop where
  | nil : ∀ a, DownChain h a []
  | cons : ∀ a t ts, (h t).parent = some a → t ∈ (h a).children →
      (∃ cc, TreeItem.column_count h a = some cc ∧ 0 < cc) →
      DownChain h t ts → DownChain h a (t :: ts)

/-- A one-column data provider used by the concrete witness trees. -/
def ifaceOne : ItemDataIface := ⟨fun _ _ => .pyStr "x", 1, .pyNone⟩

/-- A two-column provider that never yields a value (models a root provider
returning `None` for every section). -/
def ifaceAbsent : ItemDataIface := ⟨fun _ _ => .pyNone, 2, .pyNone⟩

/-- Witness tree: root `0` (in model `0`) with single child `1`, which has
single child `2`; everything one-column; all other ids are blank detached
objects. -/
def hW : Heap := fun i =>
  if i = 0 then ⟨none, [1], some 0, some ifaceOne⟩
  else if i = 1 then ⟨some 0, [2], some 0, some ifaceOne⟩
  else if i = 2 then ⟨some 1, [], some 0, some ifaceOne⟩
  else ⟨none, [], none, none⟩

/-- Witness tree with a root whose provider yields no values. -/
def hAbsent : Heap := fun i =>
  if i = 0 then ⟨none, [], some 0, some ifaceAbsent⟩
  else ⟨none, [], none, none⟩

section HelperLemmas

@[simp] lemma updModel_children (h : Heap) (i : Nat) (m : Option Nat) (j : Nat) :
    ((updModel h i m) j).children = (h j).children := by
  unfold updModel; by_cases hj : j = i <;> simp [hj]

@[simp] lemma updModel_parent (h : Heap) (i : Nat) (m : Option Nat) (j : Nat) :
    ((updModel h i m) j).parent = (h j).parent := by
  unfold updModel; by_cases hj : j = i <;> simp [hj]

@[simp] lemma updModel_idata (h : Heap) (i : Nat) (m : Option Nat) (j : Nat) :
    ((updModel h i m) j).idata = (h j).idata := by
  unfold updModel; by_cases hj : j = i <;> simp [hj]

lemma updModel_model (h : Heap) (i : Nat) (m : Option Nat) (j : Nat) :
    ((updModel h i m) j).model = if j = i then m else (h j).model := by
  unfold updModel; by_cases hj : j = i <;> simp [hj]

@[simp] lemma updParent_children (h : Heap) (i : Nat) (p : Option Nat) (j : Nat) :
    ((updParent h i p) j).children = (h j).children := by
  unfold updParent; by_cases hj : j = i <;> simp [hj]

@[simp] lemma updParent_idata (h : Heap) (i : Nat) (p : Option Nat) (j : Nat) :
    ((updParent h i p) j).idata = (h j).idata := by
  unfold updParent; by_cases hj : j = i <;> simp [hj]

@[simp] lemma updChildren_parent (h : Heap) (i : Nat) (cs : List Nat) (j : Nat) :
    ((updChildren h i cs) j).parent = (h j).parent := by
  unfold updChildren; by_cases hj : j = i <;> simp [hj]

lemma updChildren_children (h : Heap) (i : Nat) (cs : List Nat) (j : Nat) :
    ((updChildren h i cs) j).children = if j = i then cs else (h j).children := by
  unfold updChildren; by_cases hj : j = i <;> simp [hj]

lemma foldl_pres_children (g : Heap → Nat → Heap)
    (hg : ∀ h c j, ((g h c) j).children = (h j).children) :
    ∀ (l : List Nat) (h : Heap) (j : Nat),
      ((l.foldl g h) j).children = (h j).children := by
  intro l
  induction l with
  | nil => intro h j; rfl
  | cons c cs ih => intro h j; simp only [List.foldl_cons]; rw [ih, hg]

lemma foldl_pres_parent (g : Heap → Nat → Heap)
    (hg : ∀ h c j, ((g h c) j).parent = (h j).parent) :
    ∀ (l : List Nat) (h : Heap) (j : Nat),
      ((l.foldl g h) j).parent = (h j).parent := by
  intro l
  induction l with
  | nil => intro h j; rfl
  | cons c cs ih => intro h j; simp only [List.foldl_cons]; rw [ih, hg]

lemma foldl_pres_idata (g : Heap → Nat → Heap)
    (hg : ∀ h c j, ((g h c) j).idata = (h j).idata) :
    ∀ (l : List Nat) (h : Heap) (j : Nat),
      ((l.foldl g h) j).idata = (h j).idata := by
  intro l
  induction l with
  | nil => intro h j; rfl
  | cons c cs ih => intro h j; simp only [List.foldl_cons]; rw [ih, hg]

lemma set_model_children (m : Option Nat) :
    ∀ (fuel : Nat) (h : Heap) (i j : Nat),
      ((TreeItem.set_model m fuel h i) j).children = (h j).children := by
  intro fuel
  induction fuel with
  | zero => intro h i j; rfl
  | succ f ih =>
      intro h i j
      show ((((updModel h i m) i).children).foldl
        (fun acc c => TreeItem.set_model m f acc c) (updModel h i m) j).children
        = (h j).children
      rw [foldl_pres_children _ (fun h c j => ih h c j)]
      simp

lemma set_model_parent (m : Option Nat) :
    ∀ (fuel : Nat) (h : Heap) (i j : Nat),
      ((TreeItem.set_model m fuel h i) j).parent = (h j).parent := by
  intro fuel
  induction fuel with
  | zero => intro h i j; rfl
  | succ f ih =>
      intro h i j
      show ((((updModel h i m) i).children).foldl
        (fun acc c => TreeItem.set_model m f acc c) (updModel h i m) j).parent
        = (h j).parent
      rw [foldl_pres_parent _ (fun h c j => ih h c j)]
      simp

lemma set_model_idata (m : Option Nat) :
    ∀ (fuel : Nat) (h : Heap) (i j : Nat),
      ((TreeItem.set_model m fuel h i) j).idata = (h j).idata := by
  intro fuel
  induction fuel with
  | zero => intro h i j; rfl
  | succ f ih =>
      intro h i j
      show ((((updModel h i m) i).children).foldl
        (fun acc c => TreeItem.set_model m f acc c) (updModel h i m) j).idata
        = (h j).idata
      rw [foldl_pres_idata _ (fun h c j => ih h c j)]
      simp

lemma foldl_model_or (g : Heap → Nat → Heap) (m : Option Nat)
    (hg : ∀ h c j, ((g h c) j).model = (h j).model ∨ ((g h c) j).model = m) :
    ∀ (l : List Nat) (h : Heap) (j : Nat),
      ((l.foldl g h) j).model = (h j).model ∨ ((l.foldl g h) j).model = m := by
  intro l
  induction l with
  | nil => intro h j; exact Or.inl rfl
  | cons c cs ih =>
      intro h j
      simp only [List.foldl_cons]
      rcases ih (g h c) j with h1 | h1
      · rw [h1]; exact hg h c j
      · exact Or.inr h1

lemma foldl_model_keep (g : Heap → Nat → Heap) (m : Option Nat)
    (hg : ∀ h c j, ((g h c) j).model = (h j).model ∨ ((g h c) j).model = m) :
    ∀ (l : List Nat) (h : Heap) (j : Nat), (h j).model = m →
      ((l.foldl g h) j).model = m := by
  intro l h j hm
  rcases foldl_model_or g m hg l h j with h1 | h1
  · rw [h1, hm]
  · exact h1

lemma set_model_succ (m : Option Nat) (f : Nat) (h : Heap) (i : Nat) :
    TreeItem.set_model m (f + 1) h i =
      (((updModel h i m) i).children).foldl
        (fun acc c => TreeItem.set_model m f acc c) (updModel h i m) := rfl

lemma subtreeIds_succ (h : Heap) (f : Nat) (i : Nat) :
    subtreeIds h (f + 1) i =
      i :: ((h i).children).flatMap (fun c => subtreeIds h f c) := rfl

lemma set_model_model_or (m : Option Nat) :
    ∀ (fuel : Nat) (h : Heap) (i j : Nat),
      ((TreeItem.set_model m fuel h i) j).model = (h j).model ∨
      ((TreeItem.set_model m fuel h i) j).model = m := by
  intro fuel
  induction fuel with
  | zero => intro h i j; exact Or.inl rfl
  | succ f ih =>
      intro h i j
      rw [set_model_succ]
      rcases foldl_model_or _ m (fun h c j => ih h c j) _ (updModel h i m) j with
        h1 | h1
      · rw [h1, updModel_model]
        by_cases hj : j = i
        · exact Or.inr (by simp [hj])
        · exact Or.inl (by simp [hj])
      · exact Or.inr h1

lemma subtreeIds_congr {h h' : Heap}
    (hch : ∀ j, (h' j).children = (h j).children) :
    ∀ (fuel : Nat) (i : Nat), subtreeIds h' fuel i = subtreeIds h fuel i := by
  intro fuel
  induction fuel with
  | zero => intro i; rfl
  | succ f ih =>
      intro i
      show i :: ((h' i).children).flatMap (fun c => subtreeIds h' f c)
        = i :: ((h i).children).flatMap (fun c => subtreeIds h f c)
      rw [hch i]
      congr 1
      exact List.flatMap_congr (fun c _ => ih c)

lemma set_model_covers (m : Option Nat) :
    ∀ (fuel : Nat) (h : Heap) (i j : Nat), j ∈ subtreeIds h fuel i →
      ((TreeItem.set_model m fuel h i) j).model = m := by
  intro fuel
  induction fuel with
  | zero => intro h i j hj; exact absurd hj (List.not_mem_nil j)
  | succ f ih =>
      intro h i j hj
      rw [set_model_succ, updModel_children]
      rw [subtreeIds_succ] at hj
      have hsub : j = i ∨ ∃ c ∈ (h i).children, j ∈ subtreeIds h f c := by
        rcases List.mem_cons.mp hj with h1 | hmem
        · exact Or.inl h1
        · rcases List.mem_flatMap.mp hmem with ⟨c, hc, hjc⟩
          exact Or.inr ⟨c, hc, hjc⟩
      rcases hsub with rfl | ⟨c, hc, hjc⟩
      · apply foldl_model_keep _ m (fun h c j => set_model_model_or m f h c j)
        rw [updModel_model]; simp
      · have hstep : ∀ (l : List Nat) (acc : Heap),
            (∀ j', (acc j').children = (h j').children) →
            (∃ c ∈ l, j ∈ subtreeIds h f c) →
            ((l.foldl (fun acc c => TreeItem.set_model m f acc c) acc) j).model
              = m := by
          intro l
          induction l with
          | nil => intro acc _ hex; rcases hex with ⟨c, hc, _⟩; cases hc
          | cons d ds ihl =>
              intro acc hacc hex
              simp only [List.foldl_cons]
              rcases hex with ⟨c, hc, hjc⟩
              rcases List.mem_cons.mp hc with rfl | hcds
              · apply foldl_model_keep _ m
                  (fun h c j => set_model_model_or m f h c j)
                apply ih
                rw [subtreeIds_congr hacc]
                exact hjc
              · apply ihl
                · intro j'
                  rw [set_model_children m f acc d j', hacc j']
                · exact ⟨c, hcds, hjc⟩
        exact hstep ((h i).children) (updModel h i m) (fun j' => by simp)
          ⟨c, hc, hjc⟩

lemma pyListIndex_mem {α : Type} [DecidableEq α] {x : α} :
    ∀ {l : List α}, x ∈ l →
      ∃ n, pyListIndex x l = some n ∧ n < l.length ∧ l[n]? = some x := by
  intro l
  induction l with
  | nil => intro hx; cases hx
  | cons a l ih =>
      intro hx
      by_cases ha : a = x
      · exact ⟨0, by simp [pyListIndex, ha], by simp, by simp [ha]⟩
      · have hxl : x ∈ l := by
          rcases List.mem_cons.mp hx with h1 | h1
          · exact absurd h1.symm ha
          · exact h1
        rcases ih hxl with ⟨n, hn, hlt, hget⟩
        refine ⟨n + 1, ?_, by simpa using hlt, by simpa using hget⟩
        simp [pyListIndex, ha, hn]

lemma pyListIndex_not_mem {α : Type} [DecidableEq α] {x : α} :
    ∀ {l : List α}, x ∉ l → pyListIndex x l = none := by
  intro l
  induction l with
  | nil => intro _; rfl
  | cons a l ih =>
      intro hx
      have ha : ¬ (a = x) := fun h => hx (by simp [h])
      have hxl : x ∉ l := fun h => hx (List.mem_cons_of_mem a h)
      simp [pyListIndex, ha, ih hxl]

lemma insertAt_length {α : Type} :
    ∀ (l : List α) (n : Nat) (x : α), (insertAt l n x).length = l.length + 1 := by
  intro l
  induction l with
  | nil => intro n x; cases n <;> rfl
  | cons a l ih =>
      intro n x
      cases n with
      | zero => rfl
      | succ n => simp [insertAt, ih]

lemma insertAt_getElem_self {α : Type} :
    ∀ (l : List α) (n : Nat) (x : α), n ≤ l.length →
      (insertAt l n x)[n]? = some x := by
  intro l
  induction l with
  | nil =>
      intro n x hn
      cases n with
      | zero => rfl
      | succ n => exact absurd hn (by simp)
  | cons a l ih =>
      intro n x hn
      cases n with
      | zero => rfl
      | succ n =>
          show (a :: insertAt l n x)[n + 1]? = some x
          rw [List.getElem?_cons_succ]
          exact ih n x (Nat.le_of_succ_le_succ hn)

lemma insertAt_eraseIdx {α : Type} :
    ∀ (l : List α) (n : Nat) (x : α), n ≤ l.length →
      (insertAt l n x).eraseIdx n = l := by
  intro l
  induction l with
  | nil =>
      intro n x hn
      cases n with
      | zero => rfl
      | succ n => exact absurd hn (by simp)
  | cons a l ih =>
      intro n x hn
      cases n with
      | zero => rfl
      | succ n =>
          show (a :: insertAt l n x).eraseIdx (n + 1) = a :: l
          rw [List.eraseIdx_cons_succ]
          rw [ih n x (Nat.le_of_succ_le_succ hn)]

lemma index_of_hasIndex_false (h : Heap) (root : Nat) (row column : Int)
    (parent : QModelIndex)
    (hf : TreeModel.hasIndex h root row column parent = some false) :
    TreeModel.index h root row column parent = some .invalid := by
  unfold TreeModel.index
  rw [hf]
  rfl

lemma index_of_hasIndex_true (h : Heap) (root : Nat) (row column : Int)
    (parent : QModelIndex)
    (ht : TreeModel.hasIndex h root row column parent = some true)
    (c : Nat) (hc : TreeItem.child h (resolveItem root parent) row = some c) :
    TreeModel.index h root row column parent = some (.mk row column c) := by
  unfold TreeModel.index
  rw [ht]
  simp [hc]

lemma insertRow_parts (h : Heap) (mid root : Nat) (row : Int) (item : Nat)
    (parent : QModelIndex) (fuel : Nat) :
    (TreeModel.insertRow h mid root row item parent fuel).2.1 = true
    ∧ (TreeModel.insertRow h mid root row item parent fuel).2.2 =
        [.beginInsertRowsEv parent row row, .endInsertRowsEv]
    ∧ ((TreeModel.insertRow h mid root row item parent fuel).1
        (resolveItem root parent)).children =
        pyInsert ((h (resolveItem root parent)).children) row item := by
  refine ⟨rfl, rfl, ?_⟩
  unfold TreeModel.insertRow
  rw [updChildren_children]
  rw [if_pos rfl]
  rw [updParent_children, set_model_children]

lemma pyInsert_of_nonneg {α : Type} (l : List α) (i : Int) (x : α)
    (h0 : 0 ≤ i) : pyInsert l i x = insertAt l i.toNat x := by
  show insertAt l (if i < 0 then
      (if i + (l.length : Int) < 0 then 0 else i + (l.length : Int))
    else i).toNat x = insertAt l i.toNat x
  rw [if_neg (by omega)]

lemma removeRow_parts (h : Heap) (root : Nat) (row : Int)
    (parent : QModelIndex) (fuel : Nat) (item : Nat) (cs : List Nat)
    (hget : pyGet ((h (resolveItem root parent)).children) row = some item)
    (hdel : pyDelete ((h (resolveItem root parent)).children) row = some cs) :
    TreeModel.removeRow h root row parent fuel =
      some (updChildren
        (updParent (TreeItem.set_model none fuel h item) item none)
        (resolveItem root parent) cs, true,
        [.beginRemoveRowsEv parent row row, .endRemoveRowsEv]) := by
  unfold TreeModel.removeRow
  simp only [hget, Option.bind_some, updParent_children, set_model_children,
    hdel]
  rfl

lemma reverse_getLastD (l : List Nat) (d : Nat) :
    l.reverse.getLastD d = l.headD d := by
  cases l with
  | nil => rfl
  | cons a t => simp [List.getLastD_concat]

lemma chain_collect {h : Heap} {root : Nat} :
    ∀ {item : Nat} {ps : List Nat}, AttachedChain h root item ps →
      ∀ {fuel : Nat}, ps.length < fuel →
      collectParents h root fuel item = some (some ps) := by
  intro item ps hch
  induction hch with
  | base c hp _ =>
      intro fuel hfuel
      cases fuel with
      | zero => omega
      | succ f =>
          unfold collectParents
          simp [hp]
  | step c p ps hp _ hne _ ih =>
      intro fuel hfuel
      cases fuel with
      | zero => omega
      | succ f =>
          unfold collectParents
          simp only [hp]
          rw [if_neg hne, ih (by simpa using Nat.lt_of_succ_lt_succ hfuel)]
          rfl

lemma detached_collect {h : Heap} {root : Nat} :
    ∀ {item : Nat} {ps : List Nat}, DetachedChain h root item ps →
      ∀ {fuel : Nat}, ps.length < fuel →
      collectParents h root fuel item = some none := by
  intro item ps hch
  induction hch with
  | base c hp =>
      intro fuel hfuel
      cases fuel with
      | zero => omega
      | succ f =>
          unfold collectParents
          simp only [hp]
  | step c p ps hp hne _ ih =>
      intro fuel hfuel
      cases fuel with
      | zero => omega
      | succ f =>
          unfold collectParents
          simp only [hp]
          rw [if_neg hne, ih (by simpa using Nat.lt_of_succ_lt_succ hfuel)]
          rfl

lemma chain_head {h : Heap} {root : Nat} {c : Nat} {ps : List Nat}
    (hch : AttachedChain h root c ps) :
    (h c).parent = some (ps.headD root) ∧ c ∈ (h (ps.headD root)).children := by
  cases hch with
  | base c hp hm => exact ⟨hp, hm⟩
  | step c p ps hp hm _ _ => exact ⟨hp, hm⟩

lemma downchain_snoc {h : Heap} :
    ∀ {a : Nat} {ts : List Nat}, DownChain h a ts → ∀ {p : Nat},
      (h p).parent = some (ts.getLastD a) → p ∈ (h (ts.getLastD a)).children →
      (∃ cc, TreeItem.column_count h (ts.getLastD a) = some cc ∧ 0 < cc) →
      DownChain h a (ts ++ [p]) := by
  intro a ts hd
  induction hd with
  | nil a =>
      intro p hp hm hcc
      exact DownChain.cons a p [] hp hm hcc (DownChain.nil p)
  | cons a t ts hp hm hcc _ ih =>
      intro p hpp hmm hccp
      rw [List.getLastD_cons] at hpp hmm hccp
      exact DownChain.cons a t (ts ++ [p]) hp hm hcc (ih hpp hmm hccp)

lemma chain_to_down {h : Heap} {root : Nat} :
    ∀ {c : Nat} {ps : List Nat}, AttachedChain h root c ps →
      (∀ a t, t ∈ ps → (h t).parent = some a →
        ∃ cc, TreeItem.column_count h a = some cc ∧ 0 < cc) →
      DownChain h root ps.reverse := by
  intro c ps hch
  induction hch with
  | base c _ _ => intro _; exact DownChain.nil root
  | step c p ps hp hm hne hchp ih =>
      intro hcc
      have hdown : DownChain h root ps.reverse :=
        ih (fun a t ht hpt => hcc a t (List.mem_cons_of_mem p ht) hpt)
      rw [List.reverse_cons]
      have hhead := chain_head hchp
      apply downchain_snoc hdown
      · rw [reverse_getLastD]
        exact hhead.1
      · rw [reverse_getLastD]
        exact hhead.2
      · rw [reverse_getLastD]
        exact hcc (ps.headD root) p (List.mem_cons_self p ps) hhead.1

lemma buildIndex_ok {h : Heap} {root : Nat} :
    ∀ {a : Nat} {ts : List Nat}, DownChain h a ts →
      ∀ acc : QModelIndex, resolveItem root acc = a → acc.columnI ≤ 0 →
      ∃ idx, buildIndexList h root acc ts = some idx ∧
        resolveItem root idx = ts.getLastD a ∧ idx.columnI ≤ 0 := by
  intro a ts hd
  induction hd with
  | nil a =>
      intro acc hres hcol
      exact ⟨acc, rfl, by rw [hres]; rfl, hcol⟩
  | cons a t ts hp hm hcc hdown ih =>
      intro acc hres hcol
      rcases pyListIndex_mem hm with ⟨n, hn, hlt, hget⟩
      rcases hcc with ⟨cc, hcceq, hccpos⟩
      have htrue : TreeModel.hasIndex h root (n : Int) 0 acc = some true := by
        unfold TreeModel.hasIndex
        rw [if_neg (by omega)]
        have hrc : TreeModel.rowCount h root acc = TreeItem.child_count h a := by
          unfold TreeModel.rowCount
          rw [if_neg (by omega), hres]
        rw [if_neg (by
          push_neg
          rw [hrc]
          unfold TreeItem.child_count
          omega)]
        have hccq : TreeModel.columnCount h root acc = some cc := by
          unfold TreeModel.columnCount
          rw [hres]
          exact hcceq
        rw [hccq]
        simp only [Option.map_some']
        rw [decide_eq_true (by omega)]
      have hchild : TreeItem.child h (resolveItem root acc) (n : Int) = some t := by
        unfold TreeItem.child pyGet pyNormIndex
        rw [hres, if_pos (by constructor <;> omega)]
        simpa using hget
      have hidx1 : TreeModel.index h root (n : Int) 0 acc = some (.mk n 0 t) :=
        index_of_hasIndex_true h root (n : Int) 0 acc htrue t hchild
      rcases ih (.mk n 0 t) rfl (by norm_num [QModelIndex.columnI]) with
        ⟨idx, hbuild, hresi, hcoli⟩
      refine ⟨idx, ?_, ?_, hcoli⟩
      · unfold buildIndexList
        simp only [hp, hn, Option.bind_eq_bind, Option.some_bind, hidx1]
        exact hbuild
      · rw [hresi, List.getLastD_cons]

lemma treeitem_data_delegate (h : Heap) (i : Nat) (column role : Int)
    (d : ItemDataIface) (hd : (h i).idata = some d)
    (h1 : role ≠ TREEITEM_ROLE) (h2 : role ≠ INTERNAL_OBJ_ROLE) :
    TreeItem.data h i column role = .val (d.dataF column role) := by
  have hg : column ≥ 0 ∨ column < (d.ccF : Int) := by
    by_cases hc : column ≥ 0
    · exact Or.inl hc
    · exact Or.inr (by omega)
  unfold TreeItem.data
  rw [if_neg h1, if_neg (by intro hcon; exact h2 hcon.1), hd]
  simp only [if_pos hg]

end HelperLemmas

/-- C7: for `ListItemData` over backing list `l`, `data(column, display-role)`
with `column` in `[0, len l)` returns the element unchanged when it is an
int, a float or `None`, otherwise its `str()` conversion; for a column out
of range or any other role it returns `None` (and, being total, never
throws). -/
theorem listitemdata_data_spec (l : List PyVal) (column role : Int) :
    (∀ d, 0 ≤ column → column < (l.length : Int) → role = DisplayRole →
        l[column.toNat]? = some d →
        ListItemData.data l column role =
          (if isIntFloatNone d then d else .pyStr (pyStrConv d)))
    ∧ (¬ (0 ≤ column ∧ column < (l.length : Int)) →
        ListItemData.data l column role = .pyNone)
    ∧ (role ≠ DisplayRole → ListItemData.data l column role = .pyNone) := by
  refine ⟨?_, ?_, ?_⟩
  · intro d h0 hlen hrole hget
    unfold ListItemData.data
    rw [if_neg (not_not_intro ⟨h0, hlen⟩), if_pos hrole, hget]
  · intro hout
    unfold ListItemData.data
    rw [if_pos hout]
  · intro hrole
    unfold ListItemData.data
    by_cases hout : ¬ (column ≥ 0 ∧ column < (l.length : Int))
    · rw [if_pos hout]
    · rw [if_neg hout, if_neg hrole]

/-- Witness for C7 at concrete inputs: a bool element is converted to its
display string, an out-of-range column and a non-display role yield
`None`. -/
theorem listitemdata_data_spec_witness :
    ListItemData.data [.pyBool true] 0 DisplayRole = .pyStr "True" ∧
    ListItemData.data [.pyInt 3] 9 DisplayRole = .pyNone ∧
    ListItemData.data [.pyInt 3] 0 EditRole = .pyNone :=
  ⟨((listitemdata_data_spec [.pyBool true] 0 DisplayRole).1 (.pyBool true)
      (by decide) (by decide) rfl (by decide)).trans (by decide),
   (listitemdata_data_spec [.pyInt 3] 9 DisplayRole).2.1 (by decide),
   (listitemdata_data_spec [.pyInt 3] 0 EditRole).2.2 (by decide)⟩

/-- C8: for `ListItemData`, `set_data(column, value, role)` replaces the
element and returns `true` exactly when the column is in `[0, len l)` and the
role is the display or edit role; in every other case it returns `false` and
leaves the backing list unchanged. -/
theorem listitemdata_set_data_spec (l : List PyVal) (column : Int)
    (value : PyVal) (role : Int) :
    ((ListItemData.set_data l column value role).1 = true ↔
      (0 ≤ column ∧ column < (l.length : Int) ∧
        (role = EditRole ∨ role = DisplayRole)))
    ∧ ((ListItemData.set_data l column value role).1 = true →
        (ListItemData.set_data l column value role).2 = l.set column.toNat value)
    ∧ ((ListItemData.set_data l column value role).1 = false →
        (ListItemData.set_data l column value role).2 = l) := by
  unfold ListItemData.set_data
  by_cases hout : ¬ (column ≥ 0 ∧ column < (l.length : Int))
  · rw [if_pos hout]
    refine ⟨?_, ?_, ?_⟩
    · constructor
      · intro hcon; exact absurd hcon (by simp)
      · intro hcon; exact absurd ⟨hcon.1, hcon.2.1⟩ hout
    · intro hcon; exact absurd hcon (by simp)
    · intro _; rfl
  · rw [if_neg hout]
    push_neg at hout
    by_cases hrole : role = EditRole ∨ role = DisplayRole
    · rw [if_pos hrole]
      exact ⟨by simp [hout.1, hout.2, hrole], fun _ => rfl,
        fun hcon => absurd hcon (by simp)⟩
    · rw [if_neg hrole]
      refine ⟨?_, ?_, fun _ => rfl⟩
      · constructor
        · intro hcon; exact absurd hcon (by simp)
        · intro hcon; exact absurd hcon.2.2 hrole
      · intro hcon; exact absurd hcon (by simp)

/-- Witness for C8 at concrete inputs: an in-range edit succeeds and writes;
a rejected role leaves the list unchanged. -/
theorem listitemdata_set_data_spec_witness :
    (ListItemData.set_data [.pyInt 3] 0 (.pyInt 9) EditRole).1 = true ∧
    (ListItemData.set_data [.pyInt 3] 0 (.pyInt 9) EditRole).2 = [.pyInt 9] ∧
    (ListItemData.set_data [.pyInt 3] 0 (.pyInt 9) 7).2 = [.pyInt 3] := by
  have h1 := (listitemdata_set_data_spec [.pyInt 3] 0 (.pyInt 9) EditRole).1.mpr
    (by refine ⟨by decide, by decide, Or.inl rfl⟩)
  refine ⟨h1, ?_, ?_⟩
  · exact ((listitemdata_set_data_spec [.pyInt 3] 0 (.pyInt 9) EditRole).2.1
      h1).trans (by decide)
  · exact (listitemdata_set_data_spec [.pyInt 3] 0 (.pyInt 9) 7).2.2 (by decide)

/-- C10: for a `TreeItem` holding a provider, `data(column, role)` with a
non-reserved role delegates to the provider for every integer column —
negative and beyond the declared column count included — because the guard
`column >= 0 or column < column_count` holds for every integer. -/
theorem treeitem_data_delegates (h : Heap) (i : Nat) (column role : Int)
    (d : ItemDataIface) (hd : (h i).idata = some d)
    (h1 : role ≠ TREEITEM_ROLE) (h2 : role ≠ INTERNAL_OBJ_ROLE) :
    TreeItem.data h i column role = .val (d.dataF column role) :=
  treeitem_data_delegate h i column role d hd h1 h2

/-- Witness for C10: the guard lets a negative column and one beyond the
declared count straight through to the provider. -/
theorem treeitem_data_delegates_witness :
    TreeItem.data hW 1 (-5) DisplayRole = .val (ifaceOne.dataF (-5) DisplayRole) ∧
    TreeItem.data hW 1 99 DisplayRole = .val (ifaceOne.dataF 99 DisplayRole) :=
  ⟨treeitem_data_delegates hW 1 (-5) DisplayRole ifaceOne rfl (by decide) (by decide),
   treeitem_data_delegates hW 1 99 DisplayRole ifaceOne rfl (by decide) (by decide)⟩

/-- C3, counterexample to "fails for every negative row": with one child,
`child(-1)` returns that child (Python negative indexing) instead of
failing. -/
theorem treeitem_child_negative_cex :
    TreeItem.child hW 0 (-1) = some 1 ∧ TreeItem.child hW 0 (-1) ≠ none := by
  refine ⟨by decide, by decide⟩

/-- C3 amended: `child(row)` returns the child at `row` for `row` in
`[0, child_count)`, returns the child counted from the end for `row` in
`[-child_count, 0)` (Python negative indexing), and raises (fails) only for
`row` outside `[-child_count, child_count)`. -/
theorem treeitem_child_spec (h : Heap) (i : Nat) (row : Int) :
    (∀ d, 0 ≤ row → row < (((h i).children).length : Int) →
        ((h i).children)[row.toNat]? = some d → TreeItem.child h i row = some d)
    ∧ (∀ d, -((((h i).children).length : Nat) : Int) ≤ row → row < 0 →
        ((h i).children)[(row + ((h i).children).length).toNat]? = some d →
        TreeItem.child h i row = some d)
    ∧ (row < -((((h i).children).length : Nat) : Int) ∨
        (((h i).children).length : Int) ≤ row →
        TreeItem.child h i row = none) := by
  unfold TreeItem.child pyGet pyNormIndex
  refine ⟨?_, ?_, ?_⟩
  · intro d h0 hlt hget
    rw [if_pos ⟨h0, hlt⟩]
    simpa using hget
  · intro d hge hlt hget
    rw [if_neg (by omega), if_pos ⟨hge, hlt⟩]
    simpa using hget
  · intro hcase
    rw [if_neg (by omega), if_neg (by omega)]
    rfl

/-- Witness for C3 (amended) at concrete inputs. -/
theorem treeitem_child_spec_witness :
    TreeItem.child hW 0 0 = some 1 ∧ TreeItem.child hW 0 1 = none :=
  ⟨(treeitem_child_spec hW 0 0).1 1 (by decide) (by decide) (by decide),
   (treeitem_child_spec hW 0 1).2.2 (Or.inr (by decide))⟩

/-- C6: `headerData` for the horizontal orientation returns
`root.data(section, role)`, except that when that yields `None` under the
display role it returns the 1-based section number as a string; for the
vertical orientation the display value is always the 1-based section
number as a string. -/
theorem headerData_spec (h : Heap) (root : Nat) (sec role : Int)
    (d : ItemDataIface) (hd : (h root).idata = some d) :
    (TreeModel.headerData h root sec QtHorizontal DisplayRole =
        (if d.dataF sec DisplayRole = .pyNone then
          .val (.pyStr (toString (sec + 1)))
        else .val (d.dataF sec DisplayRole)))
    ∧ (role ≠ DisplayRole → role ≠ TREEITEM_ROLE → role ≠ INTERNAL_OBJ_ROLE →
        TreeModel.headerData h root sec QtHorizontal role = .val (d.dataF sec role))
    ∧ TreeModel.headerData h root sec QtVertical DisplayRole =
        .val (.pyStr (toString (sec + 1))) := by
  refine ⟨?_, ?_, ?_⟩
  · unfold TreeModel.headerData
    rw [if_pos rfl,
      treeitem_data_delegate h root sec DisplayRole d hd (by decide) (by decide)]
    by_cases habs : d.dataF sec DisplayRole = .pyNone
    · rw [if_pos habs, if_pos ⟨by rw [habs], rfl⟩]
    · rw [if_neg habs, if_neg (fun hcon => habs (by injection hcon.1))]
  · intro h0 h1 h2
    unfold TreeModel.headerData
    rw [if_pos rfl, treeitem_data_delegate h root sec role d hd h1 h2,
      if_neg (fun hcon => h0 hcon.2)]
  · unfold TreeModel.headerData
    rw [if_neg (by decide), if_pos ⟨rfl, rfl⟩]

/-- Witness for C6: a root provider yielding no value falls back to the
1-based section string, and the vertical header is numbered. -/
theorem headerData_spec_witness :
    TreeModel.headerData hAbsent 0 1 QtHorizontal DisplayRole = .val (.pyStr "2") ∧
    TreeModel.headerData hAbsent 0 1 QtVertical DisplayRole = .val (.pyStr "2") :=
  ⟨((headerData_spec hAbsent 0 1 EditRole ifaceAbsent rfl).1).trans (by decide),
   ((headerData_spec hAbsent 0 1 EditRole ifaceAbsent rfl).2.2).trans (by decide)⟩

/-- C5: `index(row, column, parentHandle)` returns the invalid handle
(without raising) whenever the row or column is out of range for the
addressed parent — negative values and a column at or beyond the declared
column count included — and `index(0, 0, invalid)` addresses the first
top-level child of the root. -/
theorem model_index_fails_closed (h : Heap) (root : Nat) :
    (∀ (row column : Int) (parent : QModelIndex),
        (row < 0 ∨ column < 0 ∨ (TreeModel.rowCount h root parent : Int) ≤ row) →
        TreeModel.index h root row column parent = some .invalid)
    ∧ (∀ (row column : Int) (parent : QModelIndex) (cc : Nat),
        TreeModel.columnCount h root parent = some cc →
        (cc : Int) ≤ column →
        TreeModel.index h root row column parent = some .invalid)
    ∧ (∀ (c0 : Nat) (rest : List Nat) (cc : Nat),
        (h root).children = c0 :: rest →
        TreeModel.columnCount h root .invalid = some cc → 0 < cc →
        TreeModel.index h root 0 0 .invalid = some (.mk 0 0 c0)) := by
  refine ⟨?_, ?_, ?_⟩
  · intro row column parent hcase
    have hfalse : TreeModel.hasIndex h root row column parent = some false := by
      unfold TreeModel.hasIndex
      by_cases hneg : row < 0 ∨ column < 0
      · rw [if_pos hneg]
      · rw [if_neg hneg]
        push_neg at hneg
        rw [if_pos (by omega)]
    exact index_of_hasIndex_false h root row column parent hfalse
  · intro row column parent cc hcc hcol
    have hfalse : TreeModel.hasIndex h root row column parent = some false := by
      unfold TreeModel.hasIndex
      by_cases hneg : row < 0 ∨ column < 0
      · rw [if_pos hneg]
      · rw [if_neg hneg]
        push_neg at hneg
        by_cases hrow : ¬ (row < (TreeModel.rowCount h root parent : Int))
        · rw [if_pos hrow]
        · rw [if_neg hrow, hcc]
          simp only [Option.map_some']
          rw [decide_eq_false (by omega)]
    exact index_of_hasIndex_false h root row column parent hfalse
  · intro c0 rest cc hch hcc hpos
    have htrue : TreeModel.hasIndex h root 0 0 .invalid = some true := by
      unfold TreeModel.hasIndex
      rw [if_neg (by omega)]
      have hrc : 0 < TreeModel.rowCount h root .invalid := by
        unfold TreeModel.rowCount
        rw [if_neg (by decide)]
        show 0 < ((h root).children).length
        rw [hch]
        exact Nat.succ_pos _
      rw [if_neg (by push_neg; omega), hcc]
      simp only [Option.map_some']
      rw [decide_eq_true (by omega)]
    have hchild : TreeItem.child h root 0 = some c0 := by
      unfold TreeItem.child pyGet pyNormIndex
      rw [hch]
      simp
    exact index_of_hasIndex_true h root 0 0 .invalid htrue c0 hchild

/-- C1, counterexample to the unconditional round-trip: node 1 is attached
(child 0 of the root) but `index_of_item(1, column=2)` returns the invalid
handle — the `hasIndex` column check fails against the one-column tree — so
the returned handle does not resolve back to the node. -/
theorem index_of_item_roundtrip_cex :
    TreeModel.index_of_item hW 0 1 2 10 = some QModelIndex.invalid ∧
    QModelIndex.invalid ≠ QModelIndex.mk 0 2 1 := by
  refine ⟨by decide, by decide⟩

/-- C1 amended: the root maps to the invalid handle; a node whose parent
chain reaches `None` before the root maps to the invalid handle; and an
attached node `n` round-trips — `index_of_item(n, column)` returns a handle
whose internal pointer is `n`, whose row is `n`'s position in its parent's
child list and whose column is the requested one — provided the `hasIndex`
checks along the ancestor path pass: every strict ancestor above `n`'s
parent has a defined positive column count, and the requested column lies in
`[0, column_count(parent of n))`. -/
theorem index_of_item_roundtrip (h : Heap) (root : Nat) (column : Int)
    (fuel : Nat) :
    (TreeModel.index_of_item h root root column fuel = some .invalid)
    ∧ (∀ item ps p1, item ≠ root → AttachedChain h root item ps →
        ps.length < fuel → p1 = ps.headD root →
        (∀ a t, t ∈ ps → (h t).parent = some a →
          ∃ cc, TreeItem.column_count h a = some cc ∧ 0 < cc) →
        (∃ cc, TreeItem.column_count h p1 = some cc ∧ 0 ≤ column ∧
          column < (cc : Int)) →
        ∃ row : Nat, pyListIndex item ((h p1).children) = some row ∧
          TreeModel.index_of_item h root item column fuel =
            some (.mk (row : Int) column item))
    ∧ (∀ item ps, item ≠ root → DetachedChain h root item ps →
        ps.length < fuel →
        TreeModel.index_of_item h root item column fuel = some .invalid) := by
  refine ⟨?_, ?_, ?_⟩
  · unfold TreeModel.index_of_item
    rw [if_pos rfl]
  · intro item ps p1 hne hch hfuel hp1 hcols hcol
    have hhead := chain_head hch
    rw [← hp1] at hhead
    rcases pyListIndex_mem hhead.2 with ⟨n, hn, hlt, hget⟩
    have hdown : DownChain h root ps.reverse := chain_to_down hch hcols
    rcases buildIndex_ok hdown QModelIndex.invalid rfl (by decide) with
      ⟨idx, hbuild, hresi, hcoli⟩
    rw [reverse_getLastD, ← hp1] at hresi
    rcases hcol with ⟨cc, hcceq, hc0, hclt⟩
    have htrue : TreeModel.hasIndex h root (n : Int) column idx = some true := by
      unfold TreeModel.hasIndex
      rw [if_neg (by omega)]
      have hrc : TreeModel.rowCount h root idx = TreeItem.child_count h p1 := by
        unfold TreeModel.rowCount
        rw [if_neg (by omega), hresi]
      rw [if_neg (by
        push_neg
        rw [hrc]
        unfold TreeItem.child_count
        omega)]
      have hccq : TreeModel.columnCount h root idx = some cc := by
        unfold TreeModel.columnCount
        rw [hresi]
        exact hcceq
      rw [hccq]
      simp only [Option.map_some']
      rw [decide_eq_true (by omega)]
    have hchild : TreeItem.child h (resolveItem root idx) (n : Int)
        = some item := by
      unfold TreeItem.child pyGet pyNormIndex
      rw [hresi, if_pos (by constructor <;> omega)]
      simpa using hget
    have hfinal : TreeModel.index h root (n : Int) column idx =
        some (.mk (n : Int) column item) :=
      index_of_hasIndex_true h root (n : Int) column idx htrue item hchild
    refine ⟨n, hn, ?_⟩
    unfold TreeModel.index_of_item
    rw [if_neg hne]
    simp only [chain_collect hch hfuel, Option.bind_eq_bind, Option.some_bind,
      hbuild, hhead.1, hn, hfinal]
  · intro item ps hne hch hfuel
    unfold TreeModel.index_of_item
    rw [if_neg hne]
    simp only [detached_collect hch hfuel, Option.bind_eq_bind,
      Option.some_bind]
    rfl

/-- Witness for C1 (amended): in the concrete two-level tree, the grandchild
node 2 round-trips through `index_of_item`, and the root and a detached node
map to the invalid handle. -/
theorem index_of_item_roundtrip_witness :
    (TreeModel.index_of_item hW 0 0 0 5 = some .invalid) ∧
    (∃ row : Nat, pyListIndex 2 ((hW 1).children) = some row ∧
      TreeModel.index_of_item hW 0 2 0 5 = some (.mk (row : Int) 0 2)) ∧
    (TreeModel.index_of_item hW 0 7 0 5 = some .invalid) := by
  refine ⟨(index_of_item_roundtrip hW 0 0 5).1, ?_, ?_⟩
  · apply (index_of_item_roundtrip hW 0 0 5).2.1 2 [1] 1 (by decide)
    · exact AttachedChain.step 2 1 [] (by decide) (by decide) (by decide)
        (AttachedChain.base 1 (by decide) (by decide))
    · decide
    · decide
    · intro a t ht hpt
      have ht1 : t = 1 := by
        rcases List.mem_singleton.mp ht with rfl
        rfl
      subst ht1
      have ha : a = 0 := by
        have : (hW 1).parent = some 0 := by decide
        rw [this] at hpt
        exact (Option.some_inj.mp hpt).symm
      subst ha
      exact ⟨1, by decide, by decide⟩
    · exact ⟨1, by decide, by decide, by decide⟩
  · apply (index_of_item_roundtrip hW 0 0 5).2.2 7 [] (by decide)
    · exact DetachedChain.base 7 (by decide)
    · decide

/-- C9: calling `remove_child(c)` on `p` with `c` not a direct child of `p`
raises the not-found error, but only after `c.set_model(None)` has already
run: the returned heap is exactly the one produced by the recursive
`set_model(None)` — `c` and all its fuel-reachable descendants have lost
their model reference — while `p`'s child list is untouched. -/
theorem remove_child_nonatomic (h : Heap) (root p c : Nat) (fuel : Nat)
    (hc : c ∉ (h p).children) :
    TreeItem.remove_child h root p c fuel =
      some (TreeItem.set_model none fuel h c, true)
    ∧ ((TreeItem.set_model none fuel h c) p).children = (h p).children
    ∧ ∀ j ∈ subtreeIds h fuel c,
        ((TreeItem.set_model none fuel h c) j).model = none := by
  have hch := set_model_children none fuel h c p
  have hidx : pyListIndex c (((TreeItem.set_model none fuel h c) p).children)
      = none := by
    rw [hch]
    exact pyListIndex_not_mem hc
  refine ⟨?_, hch, fun j hj => set_model_covers none fuel h c j hj⟩
  unfold TreeItem.remove_child
  simp only [hidx]
  cases ((TreeItem.set_model none fuel h c) p).model <;> rfl

/-- Witness for C9 at a concrete heap: removing node 2 (a grandchild, not a
child) from the root errors yet leaves the `set_model(None)` mutation in
place. -/
theorem remove_child_nonatomic_witness :
    TreeItem.remove_child hW 0 0 2 1 =
      some (TreeItem.set_model none 1 hW 2, true) ∧
    ((TreeItem.set_model none 1 hW 2) 0).children = (hW 0).children ∧
    ((TreeItem.set_model none 1 hW 2) 2).model = none :=
  ⟨(remove_child_nonatomic hW 0 0 2 1 (by decide)).1,
   (remove_child_nonatomic hW 0 0 2 1 (by decide)).2.1,
   (remove_child_nonatomic hW 0 0 2 1 (by decide)).2.2 2 (by decide)⟩

/-- C2, counterexample to "fails on out-of-range rows": inserting at row 5
under a parent with one child returns `true` and splices at the clamped end
position (Python `list.insert` semantics) instead of failing. -/
theorem insertRow_out_of_range_cex :
    (TreeModel.insertRow hW 0 0 5 7 .invalid 3).2.1 = true ∧
    ((TreeModel.insertRow hW 0 0 5 7 .invalid 3).1 0).children = [1, 7] := by
  refine ⟨rfl, by decide⟩

/-- C2 amended: `insertRow(row, item, parentHandle)` always returns `true`
and emits the begin/end insert notifications around the splice; for `row` in
`[0, child_count]` the item is spliced in at exactly `row`; for any other
row it does not fail but splices at the clamped position of Python
`list.insert`. -/
theorem insertRow_spec (h : Heap) (mid root : Nat) (row : Int) (item : Nat)
    (parent : QModelIndex) (fuel : Nat) :
    (TreeModel.insertRow h mid root row item parent fuel).2.1 = true
    ∧ (TreeModel.insertRow h mid root row item parent fuel).2.2 =
        [.beginInsertRowsEv parent row row, .endInsertRowsEv]
    ∧ ((TreeModel.insertRow h mid root row item parent fuel).1
        (resolveItem root parent)).children =
        pyInsert ((h (resolveItem root parent)).children) row item
    ∧ (0 ≤ row →
        ((TreeModel.insertRow h mid root row item parent fuel).1
          (resolveItem root parent)).children =
          insertAt ((h (resolveItem root parent)).children) row.toNat item) := by
  refine ⟨(insertRow_parts h mid root row item parent fuel).1,
    (insertRow_parts h mid root row item parent fuel).2.1,
    (insertRow_parts h mid root row item parent fuel).2.2, ?_⟩
  intro h0
  rw [(insertRow_parts h mid root row item parent fuel).2.2]
  exact pyInsert_of_nonneg _ row item h0

/-- Witness for C2 (amended) at a concrete in-range insert. -/
theorem insertRow_spec_witness :
    (TreeModel.insertRow hW 0 0 1 7 .invalid 3).2.1 = true ∧
    ((TreeModel.insertRow hW 0 0 1 7 .invalid 3).1 0).children =
      insertAt ((hW 0).children) 1 7 :=
  ⟨(insertRow_spec hW 0 0 1 7 .invalid 3).1,
   (insertRow_spec hW 0 0 1 7 .invalid 3).2.2.2 (by decide)⟩

/-- C4: inserting a detached item at `row` under a parent and then removing
`row` under the same parent restores the parent's child sequence exactly
(element by element, by object identity). -/
theorem insert_remove_inverse (h : Heap) (mid root : Nat)
    (parent : QModelIndex) (row : Nat) (item : Nat) (fuel fuel2 : Nat)
    (hrow : row ≤ ((h (resolveItem root parent)).children).length) :
    ∃ h2 ev,
      TreeModel.removeRow
        ((TreeModel.insertRow h mid root (row : Int) item parent fuel).1)
        root (row : Int) parent fuel2 = some (h2, true, ev) ∧
      (h2 (resolveItem root parent)).children =
        (h (resolveItem root parent)).children := by
  have hch : ((TreeModel.insertRow h mid root (row : Int) item parent fuel).1
      (resolveItem root parent)).children =
      insertAt ((h (resolveItem root parent)).children) row item := by
    rw [(insertRow_parts h mid root (row : Int) item parent fuel).2.2]
    rw [pyInsert_of_nonneg _ _ _ (by omega)]
    congr 1
  set h3 := (TreeModel.insertRow h mid root (row : Int) item parent fuel).1
    with hh3
  set l := (h (resolveItem root parent)).children with hl
  have hlen : ((h3 (resolveItem root parent)).children).length = l.length + 1 := by
    rw [hch]
    exact insertAt_length l row item
  have hget : pyGet ((h3 (resolveItem root parent)).children) (row : Int)
      = some item := by
    unfold pyGet pyNormIndex
    rw [hlen, if_pos (by constructor <;> omega)]
    simp only [Int.toNat_natCast]
    rw [hch]
    exact insertAt_getElem_self l row item hrow
  have hdel : pyDelete ((h3 (resolveItem root parent)).children) (row : Int)
      = some l := by
    unfold pyDelete pyNormIndex
    rw [hlen, if_pos (by constructor <;> omega)]
    simp only [Option.map_some', Int.toNat_natCast]
    rw [hch, insertAt_eraseIdx l row item hrow]
  refine ⟨_, _, removeRow_parts h3 root (row : Int) parent fuel2 item l
    hget hdel, ?_⟩
  rw [updChildren_children, if_pos rfl]

/-- Witness for C4 at a concrete insert/remove pair. -/
theorem insert_remove_inverse_witness :
    ∃ h2 ev,
      TreeModel.removeRow
        ((TreeModel.insertRow hW 0 0 (1 : Int) 7 .invalid 3).1)
        0 (1 : Int) .invalid 3 = some (h2, true, ev) ∧
      (h2 0).children = (hW 0).children :=
  insert_remove_inverse hW 0 0 .invalid 1 7 3 3 (by decide)

/-- Witness for C5 at concrete inputs: negative row, row past the count,
negative column and column past the count all fall back to the invalid
handle, and `(0,0,invalid)` addresses the first top-level child. -/
theorem model_index_fails_closed_witness :
    TreeModel.index hW 0 (-1) 0 .invalid = some .invalid ∧
    TreeModel.index hW 0 5 0 .invalid = some .invalid ∧
    TreeModel.index hW 0 0 (-2) .invalid = some .invalid ∧
    TreeModel.index hW 0 0 7 .invalid = some .invalid ∧
    TreeModel.index hW 0 0 0 .invalid = some (.mk 0 0 1) :=
  ⟨(model_index_fails_closed hW 0).1 (-1) 0 .invalid (Or.inl (by decide)),
   (model_index_fails_closed hW 0).1 5 0 .invalid
      (Or.inr (Or.inr (by decide))),
   (model_index_fails_closed hW 0).1 0 (-2) .invalid
      (Or.inr (Or.inl (by decide))),
   (model_index_fails_closed hW 0).2.1 0 7 .invalid 1 (by decide) (by decide),
   (model_index_fails_closed hW 0).2.2 1 [] 1 (by decide) (by decide)
      (by decide)⟩

